import Mathlib

/-!
Verification of the Zettlr markdown-editor decoration code: the inline span
matcher (tag and highlight regexes), the code-block and heading line
classifiers from `syntax-extensions.ts`, and the viewport chess-block
renderer (`markdownRenderChess`). All definitions are shallow embeddings of
the TypeScript source; documents are lists of line strings, the syntax tree
is a rose tree of named, ranged nodes, and the editor state consumed by the
chess renderer is passed explicitly.
-/

namespace Zettlr

/-! ## Span matcher (getInlineDecorator)

The source builds one global Unicode regex, the alternation of the
highlight pattern and the tag pattern,
and scans the text with it, JavaScript `exec` style: leftmost match wins,
alternatives are tried left to right, matching resumes at the end of the
previous match. We embed that matching discipline directly over `List Char`.
-/

/-- Kind of an inline decoration: group 1 of the combined regex (highlight)
or the tag alternative. -/
inductive MKind where
| highlight
| tag
deriving DecidableEq, Repr

/-- One regex match: its kind, start index and length (in characters),
exactly the span the `MatchDecorator` decorates. -/
structure SMatch where
  kind : MKind
  mstart : Nat
  mlen : Nat
deriving DecidableEq, Repr

/-- JavaScript `\s`: space, tab, line terminators, NBSP, Unicode space
separators and the BOM. -/
def isSpaceJS (c : Char) : Bool :=
  [9, 10, 11, 12, 13, 32, 160, 5760, 8232, 8233, 8239, 8287, 12288, 65279].contains c.toNat
  || (decide (8192 ≤ c.toNat) && decide (c.toNat ≤ 8202))

/-- Code points of the punctuation excluded by the negated character class
of the tag regex. -/
def tagExclCodes : List Nat :=
  [44, 46, 58, 59, 8230, 33, 63, 34, 39, 96, 187, 171, 8220, 8221, 8216, 8217,
   8212, 8211, 64, 36, 37, 38, 42, 35, 94, 43, 126, 247, 92, 47, 124, 60, 61,
   62, 91, 93, 40, 41, 123, 125]

/-- Membership in the negated class of the tag regex: not whitespace and not
one of the excluded punctuation characters. -/
def inTagClass (c : Char) : Bool :=
  !(isSpaceJS c) && !(tagExclCodes.contains c.toNat)

/-- JavaScript `.` (no `s` flag): any character except the four line
terminators. -/
def isDotChar (c : Char) : Bool :=
  !([10, 13, 8232, 8233].contains c.toNat)

/-- Lazy search for the closing delimiter of `.+?::` (resp. `.+?==`): the
least `k ≥ 1` such that the first `k` characters are `.`-matchable and the
text then continues with the doubled delimiter `d`. -/
def hlFind (d : Char) : List Char → Option Nat
| [] => none
| c :: cs =>
  if isDotChar c then
    if cs.take 2 = [d, d] then some 1 else (hlFind d cs).map (fun k => k + 1)
  else none

/-- Match `(::.+?::|==.+?==)` at index `i`; returns the total match length
(delimiters included). The `::` alternative is tried before `==`, as in the
source regex. -/
def matchHighlightAt (cs : List Char) (i : Nat) : Option Nat :=
  match cs.drop i with
  | a :: b :: rest =>
    if a = ':' ∧ b = ':' then (hlFind ':' rest).map (fun k => k + 4)
    else if a = '=' ∧ b = '=' then (hlFind '=' rest).map (fun k => k + 4)
    else none
  | _ => none

/-- Character preceding index `i`, if any. -/
def prevChar (cs : List Char) (i : Nat) : Option Char :=
  if i = 0 then none else (cs.drop (i - 1)).head?

/-- Lookbehind of the tag regex, `(?<=^|\s|[({[])`: start of text,
whitespace, or an opening parenthesis, brace or bracket. -/
def okBehind (cs : List Char) (i : Nat) : Bool :=
  decide (i = 0) ||
    (match prevChar cs i with
     | some c => isSpaceJS c || [40, 123, 91].contains c.toNat
     | none => false)

/-- Length of the maximal prefix run of characters inside the tag class
(the greedy `[^…]+`). -/
def tagRun : List Char → Nat
| [] => 0
| c :: cs => if inTagClass c then tagRun cs + 1 else 0

/-- Match the capture group `(#?[^…]+#?)` against `t` (the text after the
initial `#`), with the backtracking JavaScript applies to the optional
leading `#`. Returns the group length. -/
def tagGroup (t : List Char) : Option Nat :=
  match t with
  | '#' :: rest2 =>
    let r := tagRun rest2
    if r ≠ 0 then
      some (1 + r + (match rest2.drop r with | '#' :: _ => 1 | _ => 0))
    else
      let r0 := tagRun t
      if r0 ≠ 0 then some (r0 + (match t.drop r0 with | '#' :: _ => 1 | _ => 0))
      else none
  | _ =>
    let r0 := tagRun t
    if r0 ≠ 0 then some (r0 + (match t.drop r0 with | '#' :: _ => 1 | _ => 0))
    else none

/-- Match the tag alternative `(?<=^|\s|[({[])#(#?[^…]+#?)` at index `i`;
returns the total match length (the `#` plus the group). -/
def matchTagAt (cs : List Char) (i : Nat) : Option Nat :=
  if okBehind cs i then
    match cs.drop i with
    | '#' :: rest => (tagGroup rest).map (fun g => g + 1)
    | _ => none
  else none

/-- Try the combined alternation at index `i`: the highlight group first,
then the tag alternative, exactly as `highlightRe|tagRe` orders them. -/
def matchAt (cs : List Char) (i : Nat) : Option (MKind × Nat) :=
  match matchHighlightAt cs i with
  | some n => some (MKind.highlight, n)
  | none =>
    match matchTagAt cs i with
    | some n => some (MKind.tag, n)
    | none => none

/-- Global scan from index `p`: the leftmost match wins and scanning resumes
at the end of each match, as `exec` with the `g` flag does. -/
def scanFrom (cs : List Char) (p : Nat) (fuel : Nat) : List SMatch :=
  match fuel with
  | 0 => []
  | fuel + 1 =>
    if cs.length ≤ p then []
    else
      match matchAt cs p with
      | some (k, n) => ⟨k, p, n⟩ :: scanFrom cs (p + n) fuel
      | none => scanFrom cs (p + 1) fuel

/-- All inline decorations the `MatchDecorator` produces for one line of
text: every non-overlapping match of the combined regex, left to right. -/
def findDecorations (s : String) : List SMatch :=
  scanFrom s.toList 0 (s.toList.length + 1)

/-! ## Documents and the syntax tree

CodeMirror 6 documents are sequences of lines with 1-indexed line numbers;
a position is a character offset, lines are separated by one newline
character, and `doc.lineAt(pos)` returns the line whose inclusive
`[from, to]` range contains `pos`. Lezer syntax nodes carry a type name and
a position range and form a tree that `syntaxTree(state).iterate` visits
depth first, with `enter` able to prune a subtree by returning `false`. -/

/-- A document snapshot: the list of its lines (without newline
characters). Line numbers are 1-indexed as in the CodeMirror 6 `Text`
type. -/
structure MDoc where
  lines : List String
deriving Repr

/-- Character offset of the start of line `n` (1-indexed): each earlier
line contributes its length plus one newline. -/
def lineFromAux : List String → Nat → Nat
| [], _ => 0
| _, 0 => 0
| _ :: _, 1 => 0
| l :: ls, n + 2 => (l.length + 1) + lineFromAux ls (n + 1)

/-- Start offset of line `n`, as `state.doc.line(n).from`. -/
def MDoc.lineFrom (d : MDoc) (n : Nat) : Nat :=
  lineFromAux d.lines n

/-- Text of line `n`. -/
def MDoc.lineText (d : MDoc) (n : Nat) : String :=
  d.lines.getD (n - 1) ""

/-- End offset of line `n` (exclusive of the newline), as
`state.doc.line(n).to`. -/
def MDoc.lineTo (d : MDoc) (n : Nat) : Nat :=
  d.lineFrom n + (d.lineText n).length

/-- Number of the line containing offset `pos`, as
`state.doc.lineAt(pos).number`. -/
def lineNumberAtAux : List String → Nat → Nat
| [], _ => 1
| l :: ls, pos =>
  if pos ≤ l.length then 1
  else
    match ls with
    | [] => 1
    | _ :: _ => 1 + lineNumberAtAux ls (pos - (l.length + 1))

/-- Line number of the line containing `pos`. -/
def MDoc.lineNumberAt (d : MDoc) (pos : Nat) : Nat :=
  lineNumberAtAux d.lines pos

/-- A Lezer syntax node: type name, start and end offsets, children. The
tree is consumed read-only by the classifiers. -/
inductive SNode where
| mk (name : String) (nfrom : Nat) (nto : Nat) (children : List SNode)
deriving Repr

/-! ## Block classifier (getCodeBlockLineHighlighter)

The `render` function iterates the syntax tree; for every node whose type
name is `CodeText` it takes the line numbers of the node start and end and
pushes a `code-block-first-line` decoration on the first line, a
`code code-block-line` decoration on every line of the inclusive range, and
a `code-block-last-line` decoration on the last line, each anchored at the
line start offset. All other nodes contribute nothing, and iteration keeps
descending. We represent a line decoration as its class string paired with
the offset it is anchored at. -/

/-- Decorations pushed for one `CodeText` node spanning the interior of a
code block whose first and last offsets are `f` and `t`. -/
def codeTags (d : MDoc) (f t : Nat) : List (String × Nat) :=
  let start := d.lineNumberAt f
  let e := d.lineNumberAt t
  ("code-block-first-line", d.lineFrom start) ::
    ((List.range' start (e + 1 - start)).map
      (fun lineNo => ("code code-block-line", d.lineFrom lineNo))) ++
    [("code-block-last-line", d.lineFrom e)]

mutual

/-- The tree walk of the code-block classifier: only `CodeText` nodes push
decorations, every node is descended into. -/
def renderCode (d : MDoc) : SNode → List (String × Nat)
| SNode.mk nm f t cs =>
  (if nm = "CodeText" then codeTags d f t else []) ++ renderCodeList d cs

/-- Walk a list of sibling nodes in order. -/
def renderCodeList (d : MDoc) : List SNode → List (String × Nat)
| [] => []
| n :: ns => renderCode d n ++ renderCodeList d ns

end

mutual

/-- The `CodeText` node ranges of a tree, in visit order. -/
def collectCodeText : SNode → List (Nat × Nat)
| SNode.mk nm f t cs =>
  (if nm = "CodeText" then [(f, t)] else []) ++ collectCodeTextList cs

/-- The `CodeText` node ranges of a forest, in visit order. -/
def collectCodeTextList : List SNode → List (Nat × Nat)
| [] => []
| n :: ns => collectCodeText n ++ collectCodeTextList ns

end

/-- Concatenation of the images of `f`, used to state that the classifier
output is exactly the per-node tags of every `CodeText` node. -/
def catMap (f : α → List β) : List α → List β
| [] => []
| a :: as => f a ++ catMap f as

/-! ## Heading classifier (getHeadingLineHighlighter)

The heading `render` iterates the tree: the `Document` node is descended
into without decoration; any node whose name starts with neither `ATX` nor
`Setext` prunes its subtree; the six ATX heading types and the two Setext
heading types push a `size-header-1` … `size-header-6` line decoration at
the node start offset. -/

/-- The decoration the switch statement pushes for a heading node named
`nm` starting at offset `f`. -/
def headingDeco (nm : String) (f : Nat) : List (String × Nat) :=
  if nm = "ATXHeading1" ∨ nm = "SetextHeading1" then [("size-header-1", f)]
  else if nm = "ATXHeading2" ∨ nm = "SetextHeading2" then [("size-header-2", f)]
  else if nm = "ATXHeading3" then [("size-header-3", f)]
  else if nm = "ATXHeading4" then [("size-header-4", f)]
  else if nm = "ATXHeading5" then [("size-header-5", f)]
  else if nm = "ATXHeading6" then [("size-header-6", f)]
  else []

/-- The `name.startsWith` tests of the heading walk, over character
lists. -/
def strHasPre (pre s : String) : Bool :=
  pre.toList.isPrefixOf s.toList

mutual

/-- The tree walk of the heading classifier. -/
def renderHeadings : SNode → List (String × Nat)
| SNode.mk nm f _ cs =>
  if nm = "Document" then renderHeadingsList cs
  else if ¬(strHasPre "ATX" nm || strHasPre "Setext" nm) then []
  else headingDeco nm f ++ renderHeadingsList cs

/-- Walk a list of sibling nodes in order. -/
def renderHeadingsList : List SNode → List (String × Nat)
| [] => []
| n :: ns => renderHeadings n ++ renderHeadingsList ns

end

/-! ## Chess renderer (markdownRenderChess)

The command walks the visible lines of a CodeMirror 5 editor (0-indexed
lines). On a line in `markdown-zkn` mode, not under the cursor, matching
`/^```chess/`, it reads following lines into a code block until the cursor
line (abandon) or a line matching the closing-fence regex; it then creates
a replacing text marker over the block unless the block is empty or a
marker already overlaps the range. Board construction failures are caught
and shown as an error element. We embed the editor state the command reads
(document, cursor, viewport, per-line mode, live markers) plus an oracle
`tryBoard` standing for the external `cm-chessboard` constructor: `none`
means construction succeeds, `some err` means it throws with detail
`err`. -/

/-- A CodeMirror 5 position: 0-indexed line and character. -/
structure Pos where
  line : Nat
  ch : Nat
deriving DecidableEq, Repr

/-- Lexicographic comparison of positions. -/
def posLe (a b : Pos) : Bool :=
  decide (a.line < b.line) || (decide (a.line = b.line) && decide (a.ch ≤ b.ch))

/-- The element a chess marker replaces its range with: a rendered board,
or (when the `Chessboard` constructor threw) the error element carrying the
failure detail as its text. -/
inductive CElem where
| board (code : String)
| errorBox (text : String)
deriving DecidableEq, Repr

/-- A text marker as `cm.markText` creates it here: the replaced range, the
`clearOnEnter` and `handleMouseEvents` options, the replacing element, and
the click handler installed right after creation, which clears the
marker. -/
structure TextMarker where
  mfrom : Pos
  mto : Pos
  clearOnEnter : Bool
  handleMouseEvents : Bool
  replacedWith : CElem
  dismissOnClick : Bool
deriving DecidableEq, Repr

/-- Whether a marker overlaps the query range of `cm.findMarks` (inclusive
at both ends). -/
def marksOverlap (m : TextMarker) (f t : Pos) : Bool :=
  posLe m.mfrom t && posLe f m.mto

/-- `cm.findMarks(f, t)`: the live markers overlapping the range. -/
def findMarks (ms : List TextMarker) (f t : Pos) : List TextMarker :=
  ms.filter (fun m => marksOverlap m f t)

/-- The editor state `markdownRenderChess` reads: document lines, cursor
line, viewport bounds, mode name per line (queried at character 0), live
markers, and the board-construction oracle. -/
structure ChessEnv where
  lines : List String
  cursorLine : Nat
  viewFrom : Nat
  viewTo : Nat
  modeAt : Nat → String
  marks : List TextMarker
  tryBoard : String → Option String

/-- `cm.getLine i`. -/
def ChessEnv.getLine (env : ChessEnv) (i : Nat) : String :=
  env.lines.getD i ""

/-- The opening-fence test `/^```chess/.test(line)`. -/
def fenceOpen (s : String) : Bool :=
  "```chess".toList.isPrefixOf s.toList

/-- The closing-fence test `/^```\s*$/.test(line)`. -/
def closeFence (s : String) : Bool :=
  "```".toList.isPrefixOf s.toList && (s.toList.drop 3).all isSpaceJS

/-- Result of the inner reading loop: the line `j` it stopped on, whether
it stopped on the cursor line, the resulting `endLine` (the close-fence
line, or still `startLine` when none was found), and the accumulated
interior lines. -/
structure ReadRes where
  stopJ : Nat
  cursorIn : Bool
  endL : Nat
  block : List String
deriving Repr

/-- The inner loop of `markdownRenderChess`: starting at line `j`, read
lines into the block until the cursor line, a closing fence, or the end of
the document. -/
def readBlockGo (env : ChessEnv) (startLine : Nat) :
    Nat → Nat → List String → ReadRes
| j, 0, acc => ⟨j, false, startLine, acc⟩
| j, fuel + 1, acc =>
  if env.lines.length ≤ j then ⟨j, false, startLine, acc⟩
  else if env.cursorLine = j then ⟨j, true, startLine, acc⟩
  else if closeFence (env.getLine j) then ⟨j, false, j, acc⟩
  else readBlockGo env startLine (j + 1) fuel (acc ++ [env.getLine j])

/-- Read the block opened by the fence on line `startLine`, beginning on
the next line, as the source loop does. -/
def readBlock (env : ChessEnv) (startLine : Nat) : ReadRes :=
  readBlockGo env startLine (startLine + 1) (env.lines.length + 1) []

/-- Build the widget element: a `Chessboard` over the joined block text, or
the error element when construction throws. -/
def buildChessElem (tryBoard : String → Option String) (code : String) : CElem :=
  match tryBoard code with
  | none => CElem.board code
  | some err => CElem.errorBox ("Could not render Chessboard\n" ++ err)

/-- The marker `cm.markText` creates for a block on lines
`[startLine, endL]`: range `(startLine, 0)`–`(endL, 3)`, `clearOnEnter` and
`handleMouseEvents` set, replaced with the built element, and the
click-to-clear handler installed. -/
def mkChessMarker (env : ChessEnv) (startLine endL : Nat) (code : String) :
    TextMarker :=
  ⟨⟨startLine, 0⟩, ⟨endL, 3⟩, true, true,
   buildChessElem env.tryBoard code, true⟩

/-- Handling of one detected fence at line `i`: read the block, then either
abandon it (cursor inside, no closing fence after the opener, or an
existing marker overlapping the candidate range) or emit a marker. Returns
the marker, if any, and the next line the outer loop scans. -/
def chessBlockStep (env : ChessEnv) (marks : List TextMarker) (i : Nat) :
    Option TextMarker × Nat :=
  let r := readBlock env i
  if r.cursorIn then (none, r.stopJ + 1)
  else if r.endL ≤ i then (none, r.stopJ + 1)
  else if 0 < (findMarks marks ⟨i, 0⟩ ⟨r.endL, 3⟩).length then (none, r.stopJ + 1)
  else (some (mkChessMarker env i r.endL (String.intercalate "\n" r.block)),
        r.stopJ + 1)

/-- The outer viewport loop: skip lines whose mode is not `markdown-zkn`,
skip the cursor line, process opening fences, and accumulate the markers
created (newly created markers become visible to later `findMarks`
queries). -/
def chessGo (env : ChessEnv) : List TextMarker → Nat → Nat → List TextMarker
| _, _, 0 => []
| marks, i, fuel + 1 =>
  if env.viewTo ≤ i then []
  else if env.modeAt i ≠ "markdown-zkn" then chessGo env marks (i + 1) fuel
  else if env.cursorLine = i then chessGo env marks (i + 1) fuel
  else if fenceOpen (env.getLine i) then
    match chessBlockStep env marks i with
    | (none, next) => chessGo env marks next fuel
    | (some m, next) => m :: chessGo env (marks ++ [m]) next fuel
  else chessGo env marks (i + 1) fuel

/-- The `markdownRenderChess` command: the list of text markers it creates
over the current viewport, in order. -/
def markdownRenderChess (env : ChessEnv) : List TextMarker :=
  chessGo env env.marks env.viewFrom (env.viewTo + 1 - env.viewFrom)

/-- Models the host editor behavior documented for the `clearOnEnter`
option of `markText` (the CodeMirror 5 manual: the mark is automatically
cleared when the cursor enters its range). One caret movement to `p`
removes every live marker that has `clearOnEnter` set and whose range
contains `p`. -/
def caretMoveStep (ms : List TextMarker) (p : Pos) : List TextMarker :=
  ms.filter (fun m => !(m.clearOnEnter && posLe m.mfrom p && posLe p m.mto))

/-! ## Concrete editor states and documents used by the claims -/

/-- Every line in `markdown-zkn` mode. -/
def zknMode : Nat → String := fun _ => "markdown-zkn"

/-- A board oracle for which every payload renders. -/
def boardOk : String → Option String := fun _ => none

/-- A document with one fenced chess block on lines 2–6 (0-indexed), a
valid payload, cursor on line 0, the whole document visible, no live
markers. -/
def envChessA : ChessEnv :=
  ⟨["hello", "", "```chess", "r1", "r2", "r3", "```", "after"],
   0, 0, 8, zknMode, [], boardOk⟩

/-- The one marker the renderer creates over that block. -/
def chessWidgetA : TextMarker :=
  ⟨⟨2, 0⟩, ⟨6, 3⟩, true, true, CElem.board "r1\nr2\nr3", true⟩

/-- The same state immediately after that invocation: the created marker is
now live. -/
def envChessIdem : ChessEnv :=
  ⟨["hello", "", "```chess", "r1", "r2", "r3", "```", "after"],
   0, 0, 8, zknMode, [chessWidgetA], boardOk⟩

/-- The same document with the cursor moved to line 4, inside the block. -/
def envChessCaret4 : ChessEnv :=
  ⟨["hello", "", "```chess", "r1", "r2", "r3", "```", "after"],
   4, 0, 8, zknMode, [], boardOk⟩

/-- The same document with every line in a mode other than
`markdown-zkn`. -/
def envChessMode : ChessEnv :=
  ⟨["hello", "", "```chess", "r1", "r2", "r3", "```", "after"],
   0, 0, 8, fun _ => "gfm", [], boardOk⟩

/-- A document whose first chess block has a payload the board constructor
rejects (with detail `bad-fen`) and whose second block renders fine; the
cursor sits on the blank line between them. -/
def envChessErr : ChessEnv :=
  ⟨["t", "```chess", "bad", "```", "", "```chess", "q", "```"],
   4, 0, 8, zknMode, [],
   fun c => if c = "bad" then some "bad-fen" else none⟩

/-- The error widget created over the malformed block. -/
def chessWidgetErr : TextMarker :=
  ⟨⟨1, 0⟩, ⟨3, 3⟩, true, true,
   CElem.errorBox "Could not render Chessboard\nbad-fen", true⟩

/-- The board widget created over the second block. -/
def chessWidgetQ : TextMarker :=
  ⟨⟨5, 0⟩, ⟨7, 3⟩, true, true, CElem.board "q", true⟩

/-- A document whose opening fence is never closed. -/
def envChessNoClose : ChessEnv :=
  ⟨["a", "```chess", "x y"], 0, 0, 3, zknMode, [], boardOk⟩

/-- The marker already present over the first block of `envChessPre`. -/
def preChessMark : TextMarker :=
  ⟨⟨1, 0⟩, ⟨3, 3⟩, true, true, CElem.board "p", true⟩

/-- Two chess blocks, the first already covered by a live marker. -/
def envChessPre : ChessEnv :=
  ⟨["t", "```chess", "p", "```", "", "```chess", "q", "```"],
   4, 0, 8, zknMode, [preChessMark], boardOk⟩

/-- A document with one fenced code block whose textual interior spans
lines 3–5 (fences on lines 2 and 6). -/
def docCodeA : MDoc :=
  ⟨["alpha", "```", "aa", "bb", "cc", "```", "tail"]⟩

/-- Its syntax tree: the `CodeText` node covers lines 3–5. -/
def treeCodeA : SNode :=
  SNode.mk "Document" 0 (docCodeA.lineTo 7)
    [SNode.mk "Paragraph" (docCodeA.lineFrom 1) (docCodeA.lineTo 1) [],
     SNode.mk "FencedCode" (docCodeA.lineFrom 2) (docCodeA.lineTo 6)
       [SNode.mk "CodeText" (docCodeA.lineFrom 3) (docCodeA.lineTo 5) []],
     SNode.mk "Paragraph" (docCodeA.lineFrom 7) (docCodeA.lineTo 7) []]

/-- A document with a single-line code block interior on line 3. -/
def docCodeB : MDoc :=
  ⟨["x", "```", "only", "```"]⟩

/-- Its syntax tree: the `CodeText` node spans lines 3–3. -/
def treeCodeB : SNode :=
  SNode.mk "Document" 0 (docCodeB.lineTo 4)
    [SNode.mk "Paragraph" (docCodeB.lineFrom 1) (docCodeB.lineTo 1) [],
     SNode.mk "FencedCode" (docCodeB.lineFrom 2) (docCodeB.lineTo 4)
       [SNode.mk "CodeText" (docCodeB.lineFrom 3) (docCodeB.lineTo 3) []]]

/-- Ten lines with an ATX level-2 heading on line 1 and an ATX level-4
heading on line 10. -/
def docHeadA : MDoc :=
  ⟨["## Two", "a", "b", "c", "d", "e", "f", "g", "h", "#### Four"]⟩

/-- Its syntax tree; the paragraph between the headings has a child to show
that pruning skips non-heading subtrees. -/
def treeHeadA : SNode :=
  SNode.mk "Document" 0 (docHeadA.lineTo 10)
    [SNode.mk "ATXHeading2" (docHeadA.lineFrom 1) (docHeadA.lineTo 1) [],
     SNode.mk "Paragraph" (docHeadA.lineFrom 2) (docHeadA.lineTo 9)
       [SNode.mk "Emphasis" (docHeadA.lineFrom 2) (docHeadA.lineTo 2) []],
     SNode.mk "ATXHeading4" (docHeadA.lineFrom 10) (docHeadA.lineTo 10) []]

/-- The same layout with the level-2 heading written in the underline
(Setext) notation on lines 1–2. -/
def docHeadS : MDoc :=
  ⟨["Two", "---", "a", "b", "c", "d", "e", "f", "h", "#### Four"]⟩

/-- Its syntax tree: the Setext heading node spans both of its lines but is
anchored at its start offset. -/
def treeHeadS : SNode :=
  SNode.mk "Document" 0 (docHeadS.lineTo 10)
    [SNode.mk "SetextHeading2" (docHeadS.lineFrom 1) (docHeadS.lineTo 2) [],
     SNode.mk "Paragraph" (docHeadS.lineFrom 3) (docHeadS.lineTo 9) [],
     SNode.mk "ATXHeading4" (docHeadS.lineFrom 10) (docHeadS.lineTo 10) []]

/-- Six ATX headings, one per level. -/
def docHeadSix : MDoc :=
  ⟨["# a", "## b", "### c", "#### d", "##### e", "###### f"]⟩

/-- Its syntax tree. -/
def treeHeadSix : SNode :=
  SNode.mk "Document" 0 (docHeadSix.lineTo 6)
    [SNode.mk "ATXHeading1" (docHeadSix.lineFrom 1) (docHeadSix.lineTo 1) [],
     SNode.mk "ATXHeading2" (docHeadSix.lineFrom 2) (docHeadSix.lineTo 2) [],
     SNode.mk "ATXHeading3" (docHeadSix.lineFrom 3) (docHeadSix.lineTo 3) [],
     SNode.mk "ATXHeading4" (docHeadSix.lineFrom 4) (docHeadSix.lineTo 4) [],
     SNode.mk "ATXHeading5" (docHeadSix.lineFrom 5) (docHeadSix.lineTo 5) [],
     SNode.mk "ATXHeading6" (docHeadSix.lineFrom 6) (docHeadSix.lineTo 6) []]

/-- Both Setext heading levels. -/
def docHeadSetext : MDoc :=
  ⟨["S1", "===", "S2", "---"]⟩

/-- Its syntax tree. -/
def treeHeadSetext : SNode :=
  SNode.mk "Document" 0 (docHeadSetext.lineTo 4)
    [SNode.mk "SetextHeading1" (docHeadSetext.lineFrom 1) (docHeadSetext.lineTo 2) [],
     SNode.mk "SetextHeading2" (docHeadSetext.lineFrom 3) (docHeadSetext.lineTo 4) []]

/-! ## Helper lemmas -/

/-- A successful lazy close search yields a positive body length after which
the doubled delimiter follows. -/
theorem hlFind_spec (d : Char) :
    ∀ (t : List Char) (k : Nat), hlFind d t = some k →
      1 ≤ k ∧ (t.drop k).take 2 = [d, d] := by
  intro t
  induction t with
  | nil => intro k h; simp [hlFind] at h
  | cons c cs ih =>
    intro k h
    simp only [hlFind] at h
    split at h
    · split at h
      · rename_i htake
        injection h with h
        subst h
        exact ⟨Nat.le_refl 1, by simpa using htake⟩
      · cases hrec : hlFind d cs with
        | none => rw [hrec] at h; simp at h
        | some k0 =>
          rw [hrec] at h
          simp at h
          obtain ⟨h1, h2⟩ := ih k0 hrec
          subst h
          exact ⟨Nat.le_succ_of_le h1, by simpa using h2⟩
    · simp at h

/-- A highlight match is at least five characters long, and both its first
two and its last two characters are the doubled delimiter. -/
theorem matchHighlightAt_spec (cs : List Char) (i n : Nat)
    (h : matchHighlightAt cs i = some n) :
    5 ≤ n ∧ ∃ d, (d = ':' ∨ d = '=') ∧ (cs.drop i).take 2 = [d, d] ∧
      ((cs.drop i).drop (n - 2)).take 2 = [d, d] := by
  unfold matchHighlightAt at h
  split at h
  · rename_i a b rest heq
    split at h
    · rename_i hab
      cases hrec : hlFind ':' rest with
      | none => rw [hrec] at h; simp at h
      | some k =>
        rw [hrec] at h
        simp at h
        obtain ⟨h1, h2⟩ := hlFind_spec ':' rest k hrec
        subst h
        refine ⟨by omega, ':', Or.inl rfl, ?_, ?_⟩
        · rw [heq]; simp [hab.1, hab.2]
        · rw [heq]
          have hnn : k + 4 - 2 = (k + 1) + 1 := by omega
          rw [hnn, List.drop_succ_cons, List.drop_succ_cons]
          exact h2
    · split at h
      · rename_i hab
        cases hrec : hlFind '=' rest with
        | none => rw [hrec] at h; simp at h
        | some k =>
          rw [hrec] at h
          simp at h
          obtain ⟨h1, h2⟩ := hlFind_spec '=' rest k hrec
          subst h
          refine ⟨by omega, '=', Or.inr rfl, ?_, ?_⟩
          · rw [heq]; simp [hab.1, hab.2]
          · rw [heq]
            have hnn : k + 4 - 2 = (k + 1) + 1 := by omega
            rw [hnn, List.drop_succ_cons, List.drop_succ_cons]
            exact h2
      · simp at h
  · simp at h

/-- A match reported as a highlight came from the highlight alternative. -/
theorem matchAt_highlight (cs : List Char) (i n : Nat)
    (h : matchAt cs i = some (MKind.highlight, n)) :
    matchHighlightAt cs i = some n := by
  unfold matchAt at h
  split at h
  · rename_i n0 heq
    injection h with h
    injection h with h1 h2
    subst h2
    exact heq
  · split at h
    · injection h with h
      injection h with h1 h2
      exact absurd h1 (by simp)
    · exact absurd h (by simp)

/-- A match reported as a tag came from the tag alternative. -/
theorem matchAt_tag (cs : List Char) (i n : Nat)
    (h : matchAt cs i = some (MKind.tag, n)) :
    matchTagAt cs i = some n := by
  unfold matchAt at h
  split at h
  · injection h with h
    injection h with h1 h2
    exact absurd h1 (by simp)
  · split at h
    · rename_i n0 heq
      injection h with h
      injection h with h1 h2
      subst h2
      exact heq
    · exact absurd h (by simp)

/-- A tag match passes the lookbehind and starts with a hash sign. -/
theorem matchTagAt_spec (cs : List Char) (i n : Nat)
    (h : matchTagAt cs i = some n) :
    okBehind cs i = true ∧ (cs.drop i).take 1 = ['#'] := by
  unfold matchTagAt at h
  split at h
  · rename_i hok
    split at h
    · rename_i rest heq
      exact ⟨hok, by rw [heq]; simp⟩
    · simp at h
  · simp at h

/-- Every match reported by the scan is a match of the combined alternation
at its own start index. -/
theorem scanFrom_mem (cs : List Char) :
    ∀ (fuel p : Nat) (m : SMatch), m ∈ scanFrom cs p fuel →
      matchAt cs m.mstart = some (m.kind, m.mlen) := by
  intro fuel
  induction fuel with
  | zero => intro p m hm; simp [scanFrom] at hm
  | succ fuel ih =>
    intro p m hm
    simp only [scanFrom] at hm
    split at hm
    · simp at hm
    · split at hm
      · rename_i k n heq
        rcases List.mem_cons.mp hm with h | h
        · subst h; exact heq
        · exact ih _ m h
      · exact ih _ m hm

/-- Position order is reflexive. -/
theorem posLe_refl (a : Pos) : posLe a a = true := by
  simp [posLe]

/-- Position order holds across a strict line increase. -/
theorem posLe_of_lt (a b : Pos) (h : a.line < b.line) : posLe a b = true := by
  simp [posLe, h]

/-- When the reading loop stops without hitting the cursor, no line from
its starting point up to the reported end line is the cursor line. -/
theorem readBlockGo_no_cursor (env : ChessEnv) (s : Nat) :
    ∀ (fuel j : Nat) (acc : List String) (k : Nat), s < j →
      (readBlockGo env s j fuel acc).cursorIn = false →
      j ≤ k → k ≤ (readBlockGo env s j fuel acc).endL →
      env.cursorLine ≠ k := by
  intro fuel
  induction fuel with
  | zero =>
    intro j acc k hs hcur hjk hke
    simp only [readBlockGo] at hke
    omega
  | succ fuel ih =>
    intro j acc k hs hcur hjk hke
    by_cases h1 : env.lines.length ≤ j
    · simp only [readBlockGo, if_pos h1] at hke
      omega
    · by_cases h2 : env.cursorLine = j
      · rw [readBlockGo, if_neg h1, if_pos h2] at hcur
        simp at hcur
      · by_cases h3 : closeFence (env.getLine j) = true
        · rw [readBlockGo, if_neg h1, if_neg h2, if_pos h3] at hke
          have : k = j := Nat.le_antisymm hke hjk
          subst this
          exact h2
        · rw [readBlockGo, if_neg h1, if_neg h2, if_neg h3] at hcur hke
          rcases Nat.eq_or_lt_of_le hjk with h | h
          · subst h; exact h2
          · exact ih (j + 1) _ k (by omega) hcur (by omega) hke

/-- Properties of a marker emitted for the fence at line `i`: its range is
the block range, the options and the click handler are set, no live marker
overlapped the range, and the cursor is outside the block. -/
theorem chessBlockStep_some (env : ChessEnv) (marks : List TextMarker) (i : Nat)
    (m : TextMarker) (next : Nat)
    (hc : env.cursorLine ≠ i)
    (h : chessBlockStep env marks i = (some m, next)) :
    m.clearOnEnter = true ∧ m.handleMouseEvents = true ∧ m.dismissOnClick = true ∧
    m.mfrom.ch = 0 ∧ m.mto.ch = 3 ∧ m.mfrom.line = i ∧ m.mfrom.line < m.mto.line ∧
    (∀ m0 ∈ marks, marksOverlap m0 m.mfrom m.mto = false) ∧
    ¬(m.mfrom.line ≤ env.cursorLine ∧ env.cursorLine ≤ m.mto.line) := by
  unfold chessBlockStep at h
  by_cases h1 : (readBlock env i).cursorIn = true
  · rw [if_pos h1] at h
    simp at h
  · rw [if_neg h1] at h
    by_cases h2 : (readBlock env i).endL ≤ i
    · rw [if_pos h2] at h
      simp at h
    · rw [if_neg h2] at h
      by_cases h3 : 0 < (findMarks marks ⟨i, 0⟩ ⟨(readBlock env i).endL, 3⟩).length
      · rw [if_pos h3] at h
        simp at h
      · rw [if_neg h3] at h
        have hm : m = mkChessMarker env i (readBlock env i).endL
            (String.intercalate "\n" (readBlock env i).block) := by
          have := congrArg Prod.fst h
          simpa using this.symm
        subst hm
        have hempty : ∀ m0 ∈ marks,
            marksOverlap m0 ⟨i, 0⟩ ⟨(readBlock env i).endL, 3⟩ = false := by
          intro m0 hm0
          have hlen : (findMarks marks ⟨i, 0⟩ ⟨(readBlock env i).endL, 3⟩).length = 0 := by
            omega
          have hnil : findMarks marks ⟨i, 0⟩ ⟨(readBlock env i).endL, 3⟩ = [] :=
            List.length_eq_zero.mp hlen
          have := List.filter_eq_nil_iff.mp hnil m0 hm0
          simpa [Bool.not_eq_true] using this
        have hcur : ¬(i ≤ env.cursorLine ∧ env.cursorLine ≤ (readBlock env i).endL) := by
          rintro ⟨ha, hb⟩
          rcases Nat.eq_or_lt_of_le ha with hq | hq
          · exact hc hq.symm
          · exact readBlockGo_no_cursor env i (env.lines.length + 1) (i + 1) [] env.cursorLine
              (by omega) (by simpa [Bool.not_eq_true, readBlock] using h1) (by omega)
              (by simpa [readBlock] using hb) rfl
        refine ⟨rfl, rfl, rfl, rfl, rfl, rfl,
          by simpa [mkChessMarker] using Nat.lt_of_not_le h2, ?_, ?_⟩
        · simpa [mkChessMarker] using hempty
        · simpa [mkChessMarker] using hcur

/-- Invariants of every marker created during the viewport loop: options
and click handler set, a multi-line range, no overlap with the markers that
were live when the loop reached its block, and the cursor outside its
range. -/
theorem chessGo_spec (env : ChessEnv) :
    ∀ (fuel i : Nat) (marks : List TextMarker) (m : TextMarker),
      m ∈ chessGo env marks i fuel →
      m.clearOnEnter = true ∧ m.dismissOnClick = true ∧
      m.mfrom.ch = 0 ∧ m.mto.ch = 3 ∧ m.mfrom.line < m.mto.line ∧
      (∀ m0 ∈ marks, marksOverlap m0 m.mfrom m.mto = false) ∧
      ¬(m.mfrom.line ≤ env.cursorLine ∧ env.cursorLine ≤ m.mto.line) := by
  intro fuel
  induction fuel with
  | zero => intro i marks m hm; simp [chessGo] at hm
  | succ fuel ih =>
    intro i marks m hm
    rw [chessGo] at hm
    by_cases h1 : env.viewTo ≤ i
    · rw [if_pos h1] at hm; simp at hm
    · rw [if_neg h1] at hm
      by_cases h2 : env.modeAt i ≠ "markdown-zkn"
      · rw [if_pos h2] at hm; exact ih _ _ m hm
      · rw [if_neg h2] at hm
        by_cases h3 : env.cursorLine = i
        · rw [if_pos h3] at hm; exact ih _ _ m hm
        · rw [if_neg h3] at hm
          by_cases h4 : fenceOpen (env.getLine i) = true
          · rw [if_pos h4] at hm
            cases hstep : chessBlockStep env marks i with
            | mk o next =>
              rw [hstep] at hm
              cases o with
              | none => exact ih _ _ m hm
              | some m0 =>
                rcases List.mem_cons.mp hm with h | h
                · subst h
                  obtain ⟨a1, a2, a3, a4, a5, a6, a7, a8, a9⟩ :=
                    chessBlockStep_some env marks i m next h3 hstep
                  exact ⟨a1, a3, a4, a5, a7, a8, a9⟩
                · obtain ⟨a1, a2, a3, a4, a5, a6, a7⟩ := ih _ _ m h
                  refine ⟨a1, a2, a3, a4, a5, ?_, a7⟩
                  intro mq hmq
                  exact a6 mq (List.mem_append_left _ hmq)
          · rw [if_neg h4] at hm; exact ih _ _ m hm

/-- When every remaining visible line has the wrong mode, the loop creates
nothing. -/
theorem chessGo_mode (env : ChessEnv) :
    ∀ (fuel i : Nat) (marks : List TextMarker),
      (∀ k, i ≤ k → k < env.viewTo → env.modeAt k ≠ "markdown-zkn") →
      chessGo env marks i fuel = [] := by
  intro fuel
  induction fuel with
  | zero => intro i marks _; rw [chessGo]
  | succ fuel ih =>
    intro i marks h
    rw [chessGo]
    by_cases h1 : env.viewTo ≤ i
    · rw [if_pos h1]
    · rw [if_neg h1, if_pos (h i (Nat.le_refl i) (Nat.lt_of_not_le h1))]
      exact ih (i + 1) marks (fun k hk1 hk2 => h k (by omega) hk2)

/-- Concatenation maps distribute over append. -/
theorem catMap_append (f : α → List β) (a b : List α) :
    catMap f (a ++ b) = catMap f a ++ catMap f b := by
  induction a with
  | nil => simp [catMap]
  | cons x xs ih => simp [catMap, ih]

mutual

/-- The code-block classifier output is exactly the per-node tag lists of
the `CodeText` nodes of the tree, in visit order. -/
theorem renderCode_eq (d : MDoc) :
    ∀ n : SNode,
      renderCode d n = catMap (fun p => codeTags d p.1 p.2) (collectCodeText n)
| SNode.mk nm f t cs => by
  rw [renderCode, collectCodeText, catMap_append]
  congr 1
  · by_cases h : nm = "CodeText" <;> simp [h, catMap]
  · exact renderCodeList_eq d cs

/-- Forest version of `renderCode_eq`. -/
theorem renderCodeList_eq (d : MDoc) :
    ∀ ns : List SNode,
      renderCodeList d ns =
        catMap (fun p => codeTags d p.1 p.2) (collectCodeTextList ns)
| [] => by rw [renderCodeList, collectCodeTextList]; rfl
| n :: ns => by
  rw [renderCodeList, collectCodeTextList, catMap_append,
    renderCode_eq d n, renderCodeList_eq d ns]

end

/-! ## Claims -/

/-- C1: for every document, the block classifier tags, for each code-block
`CodeText` node, the first line of the node as `code-block-first-line`, the
last line as `code-block-last-line`, and every line of the inclusive range
as a code line; on the document with one fenced block whose interior spans
lines 3 to 5 it tags exactly lines 3, 4 and 5 as stated and nothing
elsewhere, and a single-line block receives all three tags on its one
line. -/
theorem claim_C1_codeblock_lines :
    (∀ (d : MDoc) (n : SNode),
      renderCode d n = catMap (fun p => codeTags d p.1 p.2) (collectCodeText n)) ∧
    renderCode docCodeA treeCodeA =
      [("code-block-first-line", docCodeA.lineFrom 3),
       ("code code-block-line", docCodeA.lineFrom 3),
       ("code code-block-line", docCodeA.lineFrom 4),
       ("code code-block-line", docCodeA.lineFrom 5),
       ("code-block-last-line", docCodeA.lineFrom 5)] ∧
    renderCode docCodeB treeCodeB =
      [("code-block-first-line", docCodeB.lineFrom 3),
       ("code code-block-line", docCodeB.lineFrom 3),
       ("code-block-last-line", docCodeB.lineFrom 3)] :=
  ⟨fun d n => renderCode_eq d n, by decide, by decide⟩

/-- C2, counterexample: on the block over lines 2 to 6 the renderer creates
a widget, and one caret movement into line 4 of the block (under the
documented `clearOnEnter` semantics the marker is created with) removes the
widget — caret movement alone does revert the rendered block, so dismissal
is not limited to the click handler. -/
theorem claim_C2_caret_cex :
    markdownRenderChess envChessA ≠ [] ∧
    caretMoveStep (markdownRenderChess envChessA) ⟨4, 0⟩ = [] := by
  constructor
  · decide
  · decide

/-- C2, amended: every widget the chess renderer creates has `clearOnEnter`
set, so the host clears it as soon as the caret enters its range; the
click-to-dismiss handler is installed as well. -/
theorem claim_C2_caret_amended :
    ∀ (env : ChessEnv) (m : TextMarker), m ∈ markdownRenderChess env →
      m.clearOnEnter = true ∧ m.dismissOnClick = true ∧
      caretMoveStep [m] m.mfrom = [] := by
  intro env m hm
  obtain ⟨a1, a2, a3, a4, a5, a6, a7⟩ := chessGo_spec env _ _ _ m hm
  refine ⟨a1, a2, ?_⟩
  have hle : posLe m.mfrom m.mto = true := posLe_of_lt _ _ a5
  simp [caretMoveStep, a1, hle, posLe_refl]

/-- C2, witness for the amended claim at the concrete block. -/
theorem claim_C2_caret_amended_w :
    chessWidgetA.clearOnEnter = true ∧ chessWidgetA.dismissOnClick = true ∧
    caretMoveStep [chessWidgetA] chessWidgetA.mfrom = [] :=
  claim_C2_caret_amended envChessA chessWidgetA (by decide)

/-- C3: a tag match arises only with start-of-text, whitespace or an
opening bracket immediately before the hash sign, and starts with the hash
sign; the four concrete texts of the claim yield exactly the stated
matches. -/
theorem claim_C3_tag_pattern :
    (∀ (s : String) (m : SMatch), m ∈ findDecorations s → m.kind = MKind.tag →
      okBehind s.toList m.mstart = true ∧
        (s.toList.drop m.mstart).take 1 = ['#']) ∧
    findDecorations "see #project-a and #sub#" =
      [⟨MKind.tag, 4, 10⟩, ⟨MKind.tag, 19, 5⟩] ∧
    findDecorations "price is 5#3" = [] ∧
    findDecorations "x#tag" = [] ∧
    findDecorations "(#tag)" = [⟨MKind.tag, 1, 4⟩] := by
  refine ⟨?_, by decide, by decide, by decide, by decide⟩
  intro s m hm hk
  have h := scanFrom_mem s.toList _ _ m hm
  rw [hk] at h
  exact matchTagAt_spec _ _ _ (matchAt_tag _ _ _ h)

/-- C3, witness at the concrete match inside the bracketed text. -/
theorem claim_C3_tag_pattern_w :
    okBehind "(#tag)".toList 1 = true ∧
      ("(#tag)".toList.drop 1).take 1 = ['#'] :=
  claim_C3_tag_pattern.1 "(#tag)" ⟨MKind.tag, 1, 4⟩ (by decide) rfl

/-- C4: every highlight match spans at least five characters and both
begins and ends with its doubled delimiter (so the decorated span includes
the delimiters), and each of the two concrete texts yields exactly one
highlight match over the delimited span. -/
theorem claim_C4_highlight_pattern :
    (∀ (s : String) (m : SMatch), m ∈ findDecorations s → m.kind = MKind.highlight →
      5 ≤ m.mlen ∧ ∃ d, (d = ':' ∨ d = '=') ∧
        (s.toList.drop m.mstart).take 2 = [d, d] ∧
        ((s.toList.drop m.mstart).drop (m.mlen - 2)).take 2 = [d, d]) ∧
    findDecorations "a ::b:: c" = [⟨MKind.highlight, 2, 5⟩] ∧
    findDecorations "a ==b== c" = [⟨MKind.highlight, 2, 5⟩] := by
  refine ⟨?_, by decide, by decide⟩
  intro s m hm hk
  have h := scanFrom_mem s.toList _ _ m hm
  rw [hk] at h
  exact matchHighlightAt_spec _ _ _ (matchAt_highlight _ _ _ h)

/-- C4, witness at the concrete double-colon match. -/
theorem claim_C4_highlight_pattern_w :
    5 ≤ (5 : Nat) ∧ ∃ d, (d = ':' ∨ d = '=') ∧
      ("a ::b:: c".toList.drop 2).take 2 = [d, d] ∧
      (("a ::b:: c".toList.drop 2).drop (5 - 2)).take 2 = [d, d] :=
  claim_C4_highlight_pattern.1 "a ::b:: c" ⟨MKind.highlight, 2, 5⟩ (by decide) rfl

/-- C5: no created widget ever overlaps a marker that was live at
invocation time; the concrete block over lines 2 to 6 with caret on line 0
yields exactly one widget over lines 2 to 6, and re-invoking with that
marker live yields no widget. -/
theorem claim_C5_idempotent :
    (∀ (env : ChessEnv) (m : TextMarker), m ∈ markdownRenderChess env →
      ∀ m0 ∈ env.marks, marksOverlap m0 m.mfrom m.mto = false) ∧
    markdownRenderChess envChessA = [chessWidgetA] ∧
    markdownRenderChess envChessIdem = [] := by
  refine ⟨?_, by decide, by decide⟩
  intro env m hm
  exact (chessGo_spec env _ _ _ m hm).2.2.2.2.2.1

/-- C5, witness: the widget created next to a pre-existing marker does not
overlap it. -/
theorem claim_C5_idempotent_w :
    marksOverlap preChessMark chessWidgetQ.mfrom chessWidgetQ.mto = false :=
  claim_C5_idempotent.1 envChessPre chessWidgetQ (by decide) preChessMark (by decide)

/-- C6: the cursor line never lies inside the line range of a created
widget, and with the caret on line 4 inside the block over lines 2 to 6 the
renderer creates no widget at all. -/
theorem claim_C6_caret_excluded :
    (∀ (env : ChessEnv) (m : TextMarker), m ∈ markdownRenderChess env →
      ¬(m.mfrom.line ≤ env.cursorLine ∧ env.cursorLine ≤ m.mto.line)) ∧
    markdownRenderChess envChessCaret4 = [] := by
  refine ⟨?_, by decide⟩
  intro env m hm
  exact (chessGo_spec env _ _ _ m hm).2.2.2.2.2.2

/-- C6, witness at the concrete widget. -/
theorem claim_C6_caret_excluded_w :
    ¬(chessWidgetA.mfrom.line ≤ envChessA.cursorLine ∧
      envChessA.cursorLine ≤ chessWidgetA.mto.line) :=
  claim_C6_caret_excluded.1 envChessA chessWidgetA (by decide)

/-- C7: when board construction fails on a malformed payload, exactly one
widget is still created over the block range and its content is the error
element carrying the failure detail, while the rest of the viewport is
still scanned (the following block still renders a board); the embedded
pass is a total function, so no exception escapes it. -/
theorem claim_C7_error_widget :
    markdownRenderChess envChessErr = [chessWidgetErr, chessWidgetQ] ∧
    chessWidgetErr.replacedWith =
      CElem.errorBox "Could not render Chessboard\nbad-fen" := by
  constructor
  · decide
  · rfl

/-- C8: every created widget ends strictly after it starts and overlaps no
marker live at invocation time; an unclosed fence yields no widget, and a
block already covered by a marker is skipped while scanning continues to
the next block. -/
theorem claim_C8_emit_checks :
    (∀ (env : ChessEnv) (m : TextMarker), m ∈ markdownRenderChess env →
      m.mfrom.line < m.mto.line ∧
      ∀ m0 ∈ env.marks, marksOverlap m0 m.mfrom m.mto = false) ∧
    markdownRenderChess envChessNoClose = [] ∧
    markdownRenderChess envChessPre = [chessWidgetQ] := by
  refine ⟨?_, by decide, by decide⟩
  intro env m hm
  obtain ⟨a1, a2, a3, a4, a5, a6, a7⟩ := chessGo_spec env _ _ _ m hm
  exact ⟨a5, a6⟩

/-- C8, witness at the concrete widget created after the skipped block. -/
theorem claim_C8_emit_checks_w :
    chessWidgetQ.mfrom.line < chessWidgetQ.mto.line ∧
    marksOverlap preChessMark chessWidgetQ.mfrom chessWidgetQ.mto = false := by
  have h := claim_C8_emit_checks.1 envChessPre chessWidgetQ (by decide)
  exact ⟨h.1, h.2 preChessMark (by decide)⟩

/-- C9: the heading classifier tags each heading line with the size class
of its level: a level-2 heading on line 1 (in either notation) and a
level-4 heading on line 10 yield exactly those two decorations and nothing
else; all six ATX levels and both Setext levels map to their size classes,
and a hypothetical level-3 Setext node gets no decoration. -/
theorem claim_C9_heading_lines :
    renderHeadings treeHeadA =
      [("size-header-2", docHeadA.lineFrom 1),
       ("size-header-4", docHeadA.lineFrom 10)] ∧
    renderHeadings treeHeadS =
      [("size-header-2", docHeadS.lineFrom 1),
       ("size-header-4", docHeadS.lineFrom 10)] ∧
    renderHeadings treeHeadSix =
      [("size-header-1", docHeadSix.lineFrom 1),
       ("size-header-2", docHeadSix.lineFrom 2),
       ("size-header-3", docHeadSix.lineFrom 3),
       ("size-header-4", docHeadSix.lineFrom 4),
       ("size-header-5", docHeadSix.lineFrom 5),
       ("size-header-6", docHeadSix.lineFrom 6)] ∧
    renderHeadings treeHeadSetext =
      [("size-header-1", docHeadSetext.lineFrom 1),
       ("size-header-2", docHeadSetext.lineFrom 3)] ∧
    renderHeadings (SNode.mk "SetextHeading3" 0 1 []) = [] :=
  ⟨by decide, by decide, by decide, by decide, by decide⟩

/-- C10: when every visible line has a mode other than `markdown-zkn` the
render command creates no widget at all. -/
theorem claim_C10_mode_gate :
    ∀ env : ChessEnv,
      (∀ k, env.viewFrom ≤ k → k < env.viewTo → env.modeAt k ≠ "markdown-zkn") →
      markdownRenderChess env = [] := by
  intro env h
  exact chessGo_mode env _ env.viewFrom env.marks
    (fun k hk1 hk2 => h k hk1 hk2)

/-- C10, witness on the chess document with every line in another mode. -/
theorem claim_C10_mode_gate_w :
    markdownRenderChess envChessMode = [] :=
  claim_C10_mode_gate envChessMode
    (fun k _ _ => by show ("gfm" : String) ≠ "markdown-zkn"; decide)

end Zettlr
